import Mathlib

/-!
Shallow embedding of the in-memory semantic retrieval engine of
`src/service.ts` (classes `ArchiveSearchService` and `VectorStore`).

Numbers: the TypeScript code computes with IEEE doubles; we model the
arithmetic exactly, with `ℚ` for all values produced by rational operations
(feature weights, embedding entries, word-overlap ratios) and `ℝ` for the
similarity score, whose computation takes a square root (`Math.sqrt`).

Strings: JavaScript strings are modelled by Lean `String` (a list of
characters); the regexes used by the code (`/\s+/`, `/[^.!?]+[.!?]+/g`,
`/\n{2,}/`, `/[^\w\s]/g`) are modelled by explicit character scanners,
restricted to the ASCII behaviour of those character classes.

`Array.prototype.sort` with a numeric comparator is stable (ECMAScript 2019);
it is modelled by a stable insertion sort.

Naming: definitions keep the source's names where the environment allows it;
`VectorStore.initialize` is rendered as `initStore` and the private field
`initialized` as `inited` (identifier restrictions), with the correspondence
noted at each definition.
-/

/-- ASCII lowercasing, the effect of `toLowerCase()` on ASCII text. -/
def toLowerChar (c : Char) : Char :=
  if 'A' ≤ c ∧ c ≤ 'Z' then Char.ofNat (c.toNat + 32) else c

/-- Membership in the regex class `\w` = `[A-Za-z0-9_]`. -/
def isWordChar (c : Char) : Bool :=
  ('a' ≤ c ∧ c ≤ 'z') ∨ ('A' ≤ c ∧ c ≤ 'Z') ∨ ('0' ≤ c ∧ c ≤ '9') ∨ c = '_'

/-- Membership in the regex class `\s` (ASCII part). -/
def isSpaceChar (c : Char) : Bool :=
  c = ' ' ∨ c = '\t' ∨ c = '\n' ∨ c = '\r' ∨ c = Char.ofNat 11 ∨ c = Char.ofNat 12

/-- A sentence terminator: `.`, `!` or `?`. -/
def isTermChar (c : Char) : Bool :=
  c = '.' ∨ c = '!' ∨ c = '?'

/-- `replace(/\s+/g, ' ')`: collapse each maximal whitespace run to one space.
The boolean flag records whether the previous character was whitespace. -/
def collapseWsAux : List Char → Bool → List Char
  | [], _ => []
  | c :: cs, prevSpace =>
    if isSpaceChar c then
      if prevSpace then collapseWsAux cs true else ' ' :: collapseWsAux cs true
    else c :: collapseWsAux cs false

/-- `trim()`: drop leading and trailing whitespace characters. -/
def trimChars (l : List Char) : List Char :=
  ((l.dropWhile isSpaceChar).reverse.dropWhile isSpaceChar).reverse

/-- `String.prototype.trim`. -/
def jsTrim (s : String) : String := String.mk (trimChars s.data)

/-- `VectorStore.cleanText`: lowercase, replace `[^\w\s]` by a space,
collapse whitespace runs, trim. -/
def cleanText (text : String) : String :=
  String.mk (trimChars (collapseWsAux
    ((text.data.map toLowerChar).map
      (fun c => if ¬ isWordChar c ∧ ¬ isSpaceChar c then ' ' else c)) false))

/-- `split(/\s+/)`. State `none`: a separator run was just consumed;
state `some acc`: building the current piece (reversed). A leading or
trailing whitespace run yields an empty piece, as in JavaScript. -/
def splitWsAux : List Char → Option (List Char) → List (List Char)
  | [], none => [[]]
  | [], some acc => [acc.reverse]
  | c :: cs, none =>
    if isSpaceChar c then splitWsAux cs none else splitWsAux cs (some [c])
  | c :: cs, some acc =>
    if isSpaceChar c then acc.reverse :: splitWsAux cs none
    else splitWsAux cs (some (c :: acc))

/-- `s.split(/\s+/)` on a JavaScript string. -/
def splitWs (s : String) : List String :=
  (splitWsAux s.data (some [])).map String.mk

/-- `content.match(/[^.!?]+[.!?]+/g) || []`: the list of maximal
sentence matches. State `none`: scanning for the start of a match
(skipping stray terminators); `some (acc, false)`: inside the `[^.!?]+`
part; `some (acc, true)`: inside the `[.!?]+` part. -/
def sentencesAux : List Char → Option (List Char × Bool) → List (List Char)
  | [], none => []
  | [], some (_, false) => []
  | [], some (acc, true) => [acc.reverse]
  | c :: cs, none =>
    if isTermChar c then sentencesAux cs none else sentencesAux cs (some ([c], false))
  | c :: cs, some (acc, false) =>
    if isTermChar c then sentencesAux cs (some (c :: acc, true))
    else sentencesAux cs (some (c :: acc, false))
  | c :: cs, some (acc, true) =>
    if isTermChar c then sentencesAux cs (some (c :: acc, true))
    else acc.reverse :: sentencesAux cs (some ([c], false))

/-- All matches of `/[^.!?]+[.!?]+/g` in `s`, or `[]` when there are none. -/
def matchSentences (s : String) : List String :=
  (sentencesAux s.data none).map String.mk

/-- `split(/\n{2,}/)`: split on runs of two or more newlines. State `none`:
skipping the rest of a newline run after a separator was recognised. -/
def splitParaAux : List Char → Option (List Char) → List (List Char)
  | [], some acc => [acc.reverse]
  | [], none => [[]]
  | c :: cs, none =>
    if c = '\n' then splitParaAux cs none else splitParaAux cs (some [c])
  | '\n' :: '\n' :: cs, some acc => acc.reverse :: splitParaAux cs none
  | c :: cs, some acc => splitParaAux cs (some (c :: acc))

/-- `content.split(/\n{2,}/)` on a JavaScript string. -/
def splitPara (s : String) : List String :=
  (splitParaAux s.data (some [])).map String.mk

/-- The fixed stop-word set of `VectorStore.stopWords`. -/
def defaultStopWords : List String :=
  ["the", "and", "or", "of", "to", "a", "in", "that", "it", "is", "was", "for",
   "on", "with", "as", "be", "at", "this", "but", "by", "from", "an", "not",
   "what", "all", "are", "were", "when", "we", "you", "they", "have", "had"]

/-- Feature accumulation `features[key] = (features[key] || 0) + w` on a
JavaScript object, modelled as an insertion-ordered association list. -/
def addFeat : List (String × ℚ) → String → ℚ → List (String × ℚ)
  | [], k, w => [(k, w)]
  | (k0, v) :: rest, k, w =>
    if k0 = k then (k0, v + w) :: rest else (k0, v) :: addFeat rest k w

/-- Stable insertion of `x` into a list sorted non-increasingly by `key`:
`x` goes before the first element whose key is ≤ its own, so among equal
keys an earlier-inserted element stays first. -/
def insertDescBy {α β : Type} [LinearOrder β] (key : α → β) (x : α) :
    List α → List α
  | [] => [x]
  | y :: ys => if key y ≤ key x then x :: y :: ys else y :: insertDescBy key x ys

/-- Stable sort, non-increasing by `key`: the result of a JavaScript
`sort((a, b) => key(b) - key(a))` (stable per ECMAScript 2019). -/
def sortDescBy {α β : Type} [LinearOrder β] (key : α → β) : List α → List α
  | [] => []
  | x :: xs => insertDescBy key x (sortDescBy key xs)

/-- `VectorStore.createEmbedding`. `stop` is the instance's stop-word set.
Unigram counts (+1), bigram counts (+0.8), positional weighting by first
occurrence, stable sort by weighted count descending, top 384, normalised
by the token count. -/
def createEmbedding (stop : List String) (text : String) : List ℚ :=
  let words := splitWs (cleanText text)
  let uni := words.foldl
    (fun acc word =>
      if 2 < word.length ∧ word ∉ stop then addFeat acc word 1 else acc) []
  let features := (words.zip words.tail).foldl
    (fun acc p =>
      if 2 < p.1.length ∧ 2 < p.2.length ∧ p.1 ∉ stop ∧ p.2 ∉ stop then
        addFeat acc (p.1 ++ "_" ++ p.2) 0.8
      else acc) uni
  let posWeighted := features.map (fun p =>
    match words.findIdx? (fun w => w == p.1 || p.1.startsWith (w ++ "_")) with
    | some firstPosition =>
        (p.1, p.2 * (1 - (((min firstPosition 100 : ℕ) : ℚ) / 100) * 0.5))
    | none => p)
  let topFeatures := (sortDescBy Prod.snd posWeighted).take 384
  let normalizer : ℚ := if words.length = 0 then 1 else (words.length : ℚ)
  topFeatures.map (fun p => p.2 / normalizer) ++
    List.replicate (384 - topFeatures.length) 0

/-- Dot product over the shared prefix, as accumulated by the loop of
`cosineSimilarity` (`i < Math.min(vecA.length, vecB.length)`). -/
def dotMin (a b : List ℚ) : ℚ := ((a.zip b).map (fun p => p.1 * p.2)).sum

/-- `normA` of `cosineSimilarity`: squared norm of `a` over the shared prefix. -/
def sqnormA (a b : List ℚ) : ℚ := ((a.zip b).map (fun p => p.1 * p.1)).sum

/-- `normB` of `cosineSimilarity`: squared norm of `b` over the shared prefix. -/
def sqnormB (a b : List ℚ) : ℚ := ((a.zip b).map (fun p => p.2 * p.2)).sum

/-- `vec.filter(v => v > 0).length`: the number of strictly positive entries. -/
def nonZeroCount (v : List ℚ) : ℕ :=
  (v.filter (fun x => decide ((0 : ℚ) < x))).length

/-- `VectorStore.cosineSimilarity`: cosine over the shared prefix, zero when
either prefix norm is zero, scaled by `0.7 + 0.3 * lengthRatio` where
`lengthRatio = min(nonZeroA, nonZeroB) / max(nonZeroA, nonZeroB, 1)`. -/
noncomputable def cosineSimilarity (vecA vecB : List ℚ) : ℝ :=
  if sqnormA vecA vecB = 0 ∨ sqnormB vecA vecB = 0 then 0
  else
    ((dotMin vecA vecB : ℚ) : ℝ) /
        (Real.sqrt ((sqnormA vecA vecB : ℚ) : ℝ) *
          Real.sqrt ((sqnormB vecA vecB : ℚ) : ℝ)) *
      (0.7 + 0.3 *
        (((min (nonZeroCount vecA) (nonZeroCount vecB) : ℕ) : ℝ) /
          ((max (max (nonZeroCount vecA) (nonZeroCount vecB)) 1 : ℕ) : ℝ)))

/-- `VectorStore.contentSimilarity`: Jaccard-style overlap of the distinct
words of length > 2 of the two cleaned texts. -/
def contentSimilarity (text1 text2 : String) : ℚ :=
  let words1 := ((splitWs (cleanText text1)).filter (fun w => 2 < w.length)).dedup
  let words2 := ((splitWs (cleanText text2)).filter (fun w => 2 < w.length)).dedup
  let commonWords := (words1.filter (fun w => words2.contains w)).length
  let totalUniqueWords := words1.length + words2.length - commonWords
  if 0 < totalUniqueWords then (commonWords : ℚ) / (totalUniqueWords : ℚ) else 0

/-- The 200-word fixed-window tier of `addDocuments`:
`for (i = 0; i < words.length; i += 200) { chunk = words.slice(i, i + 200).join(' '); if (chunk.length > 50) push }`. -/
def wordWindowAux : List String → List String
  | [] => []
  | w :: ws =>
    let chunk := String.intercalate " " ((w :: ws).take 200)
    (if 50 < chunk.length then [chunk] else []) ++ wordWindowAux ((w :: ws).drop 200)
termination_by l => l.length
decreasing_by
  simp only [List.length_drop, List.length_cons]
  omega

/-- The word-window fallback applied to a document's raw content. -/
def wordWindowChunks (content : String) : List String :=
  wordWindowAux (splitWs content)

/-- The paragraph tier of `addDocuments`:
`content.split(/\n{2,}/).map(p => p.trim()).filter(p => p.length > 50)`. -/
def paragraphChunks (content : String) : List String :=
  ((splitPara content).map jsTrim).filter (fun p => 50 < p.length)

/-- The whole fallback branch of `addDocuments` chunking (taken when the
sentence regex found no match): paragraphs, then word windows when at most
one usable paragraph remains and the content exceeds 500 characters. -/
def fallbackChunks (content : String) : List String :=
  let paras := paragraphChunks content
  if paras.length ≤ 1 ∧ 500 < content.length then wordWindowChunks content
  else paras

/-- One step of the sentence-grouping loop of `addDocuments`. The state is
`(chunks, currentChunk, currentLength)`. A sentence whose trimmed length is
below 10 is skipped; when adding it would push the running word count past
200 the current chunk is closed (kept only when longer than 50 characters). -/
def sentenceStep (st : List String × String × ℕ) (sentence : String) :
    List String × String × ℕ :=
  let trimmedSentence := jsTrim sentence
  if trimmedSentence.length < 10 then st
  else
    let sentenceLength := (splitWs trimmedSentence).length
    if 0 < st.2.2 ∧ 200 < st.2.2 + sentenceLength then
      ((if 50 < st.2.1.length then st.1 ++ [st.2.1] else st.1),
        trimmedSentence, sentenceLength)
    else
      (st.1, st.2.1 ++ (if st.2.1 = "" then "" else " ") ++ trimmedSentence,
        st.2.2 + sentenceLength)

/-- The sentence tier of `addDocuments` chunking: group the regex-matched
sentences greedily, then close the last chunk when it is long enough. -/
def sentenceTierChunks (content : String) : List String :=
  let fin := (matchSentences content).foldl sentenceStep ([], "", 0)
  if 50 < fin.2.1.length then fin.1 ++ [fin.2.1] else fin.1

/-- The chunk extraction of `VectorStore.addDocuments` for one document's
content (before the title is prepended): the sentence tier when the regex
`/[^.!?]+[.!?]+/g` matched at least once, otherwise paragraph splitting,
and then 200-word windows when at most one usable paragraph remains and the
content exceeds 500 characters. -/
def chunksOf (content : String) : List String :=
  let sentences := matchSentences content
  if 0 < sentences.length then
    let fin := sentences.foldl sentenceStep ([], "", 0)
    if 50 < fin.2.1.length then fin.1 ++ [fin.2.1] else fin.1
  else
    let paras := ((splitPara content).map jsTrim).filter (fun p => 50 < p.length)
    if paras.length ≤ 1 ∧ 500 < content.length then wordWindowAux (splitWs content)
    else paras

/-- Chunk metadata `{url, title}`. -/
structure ChunkMeta where
  url : String
  title : String
deriving DecidableEq

/-- An entry of `VectorStore.documents`. -/
structure StoredDoc where
  id : String
  content : String
  metadata : ChunkMeta
  embedding : List ℚ
deriving DecidableEq

/-- A query result `{content, metadata, score}`. -/
structure ScoredChunk where
  content : String
  metadata : ChunkMeta
  score : ℝ

/-- An ingestion input `{url, title, content}`. -/
structure InputDoc where
  url : String
  title : String
  content : String
deriving DecidableEq

/-- The mutable state of a `VectorStore` instance: the `documents` array,
the `initialized` flag (rendered `inited`) and the `stopWords` set (fixed at
construction, never mutated). -/
structure VSState where
  documents : List StoredDoc
  inited : Bool
  stopWords : List String
deriving DecidableEq

/-- The state of a freshly constructed `VectorStore`. -/
def initialState : VSState :=
  { documents := [], inited := false, stopWords := defaultStopWords }

/-- `VectorStore.initialize` (rendered `initStore`): reset `documents`,
set the flag, report success (the body cannot throw). -/
def initStore (s : VSState) : Bool × VSState :=
  (true, { documents := [], inited := true, stopWords := s.stopWords })

/-- `VectorStore.close`: clear `documents` and drop the flag. -/
def close (s : VSState) : VSState :=
  { documents := [], inited := false, stopWords := s.stopWords }

/-- The per-document body of the `documents.forEach` loop of
`addDocuments`: chunk the content, prepend the title to the first chunk
when both are non-empty, embed every chunk and append the records. -/
def addOneDocument (stop : List String) (acc : List StoredDoc)
    (docIndex : ℕ) (doc : InputDoc) : List StoredDoc :=
  let chunks0 := chunksOf doc.content
  let chunks :=
    match chunks0 with
    | [] => []
    | c :: rest =>
        if doc.title ≠ "" then (doc.title ++ ". " ++ c) :: rest else c :: rest
  acc ++ (chunks.enum.map (fun p =>
    { id := "doc" ++ toString docIndex ++ "_chunk" ++ toString p.1,
      content := p.2,
      metadata := { url := doc.url, title := doc.title },
      embedding := createEmbedding stop p.2 }))

/-- `VectorStore.addDocuments`: lazily runs `initialize` when the flag is
down, then appends every document's chunk records in order and returns
`true` (the loop cannot throw). -/
def addDocuments (s : VSState) (docs : List InputDoc) : Bool × VSState :=
  let s1 := if s.inited then s
    else { documents := [], inited := true, stopWords := s.stopWords }
  (true,
    { s1 with
      documents := docs.enum.foldl
        (fun acc p => addOneDocument s1.stopWords acc p.1 p.2) s1.documents })

/-- The similarity threshold of `queryRelevantContent`. -/
noncomputable def SIMILARITY_THRESHOLD : ℝ := 0.275

/-- `sorted.filter(item => item.score > SIMILARITY_THRESHOLD)`. -/
noncomputable def filterAboveThreshold : List ScoredChunk → List ScoredChunk
  | [] => []
  | x :: xs =>
    if SIMILARITY_THRESHOLD < x.score then x :: filterAboveThreshold xs
    else filterAboveThreshold xs

/-- One step of the `filteredResults.forEach` deduplication loop of
`queryRelevantContent`. The accumulator is `(uniqueResults, seenUrls)`.
A chunk of a fresh URL is always pushed; a chunk of a seen URL is pushed
only while the accepted count is below `limit` and its overlap with the
first accepted chunk of that URL is below 0.5. -/
def dedupStep (limit : ℕ) (acc : List ScoredChunk × List String)
    (result : ScoredChunk) : List ScoredChunk × List String :=
  if result.metadata.url ∈ acc.2 then
    if acc.1.length < limit then
      match acc.1.find? (fun r => r.metadata.url == result.metadata.url) with
      | some existingChunk =>
          if contentSimilarity existingChunk.content result.content < 0.5 then
            (acc.1 ++ [result], acc.2)
          else acc
      | none => acc
    else acc
  else (acc.1 ++ [result], acc.2 ++ [result.metadata.url])

/-- The whole deduplication pass over the threshold-filtered, sorted list. -/
def dedupAccept (limit : ℕ) (l : List ScoredChunk) : List ScoredChunk :=
  (l.foldl (dedupStep limit) ([], [])).1

/-- The body of the `this.documents.map` of `queryRelevantContent`: pair a
stored chunk with its similarity against the query embedding. -/
noncomputable def scoreChunk (stop : List String) (queryText : String)
    (doc : StoredDoc) : ScoredChunk :=
  { content := doc.content, metadata := doc.metadata,
    score := cosineSimilarity (createEmbedding stop queryText) doc.embedding }

/-- `VectorStore.queryRelevantContent`: lazy init (which empties the store),
fail fast on an empty store, embed the query, score every stored chunk,
stable-sort descending, filter by the threshold, deduplicate per URL and
truncate to `limit`. Returns the results with the possibly updated state. -/
noncomputable def queryRelevantContent (s : VSState) (queryText : String)
    (limit : ℕ) : List ScoredChunk × VSState :=
  let s1 := if s.inited then s
    else { documents := [], inited := true, stopWords := s.stopWords }
  if s1.documents.isEmpty then ([], s1)
  else
    let similarities := s1.documents.map (scoreChunk s1.stopWords queryText)
    let sorted := sortDescBy ScoredChunk.score similarities
    let filteredResults := filterAboveThreshold sorted
    (( dedupAccept limit filteredResults).take limit, s1)

/-- An externally issued operation on the singleton store. -/
inductive VSOp
  | initOp : VSOp
  | addOp : List InputDoc → VSOp
  | queryOp : String → ℕ → VSOp
  | closeOp : VSOp

/-- The state transition of one operation. -/
noncomputable def stepOp (s : VSState) : VSOp → VSState
  | VSOp.initOp => (initStore s).2
  | VSOp.addOp docs => (addDocuments s docs).2
  | VSOp.queryOp q limit => (queryRelevantContent s q limit).2
  | VSOp.closeOp => close s

/-- Running a sequence of operations from a state. -/
noncomputable def runOps (s : VSState) (ops : List VSOp) : VSState :=
  ops.foldl stepOp s

/-- `ArchiveSearchService.trimToSentenceBoundary` uses
`text.lastIndexOf(ch, maxLength)`: the largest index `i ≤ maxLength` with
`text[i] = ch`, or `-1`. Scans downward from `i`. -/
def lastIdxFrom (d : List Char) (c : Char) : ℕ → Int
  | 0 => if d.getD 0 ' ' = c then 0 else -1
  | i + 1 => if d.getD (i + 1) ' ' = c then (i + 1 : ℕ) else lastIdxFrom d c i

/-- `text.lastIndexOf(c, k)` for a JavaScript string. -/
def lastIndexOfWithin (s : String) (c : Char) (k : ℕ) : Int :=
  if s.data.isEmpty then -1 else lastIdxFrom s.data c (min k (s.length - 1))

/-- `ArchiveSearchService.trimToSentenceBoundary`: return short text
unchanged; otherwise cut after the last sentence terminator at or before
`maxLength` when one exists at a positive index, else hard-cut. -/
def trimToSentenceBoundary (text : String) (maxLength : ℕ) : String :=
  if text.length ≤ maxLength then text
  else
    let lastBoundary :=
      max (max (lastIndexOfWithin text '.' maxLength)
        (lastIndexOfWithin text '!' maxLength))
        (lastIndexOfWithin text '?' maxLength)
    if 0 < lastBoundary then String.mk (text.data.take (lastBoundary.toNat + 1))
    else String.mk (text.data.take maxLength)

/-- The guarantee the deduplication loop actually maintains: whenever the
accepted list splits as `pre ++ c :: post` and the first accepted chunk of
`c`'s URL already occurs in `pre` (so `c` is a later chunk of a seen URL),
the overlap between that first chunk and `c` is below 0.5. -/
def NoDupFirstOverlap (l : List ScoredChunk) : Prop :=
  ∀ pre c post f, l = pre ++ c :: post →
    pre.find? (fun r => r.metadata.url == c.metadata.url) = some f →
    contentSimilarity f.content c.content < 0.5

/-- The embedding of the query text used by every concrete store below. -/
def qCat : List ℚ := createEmbedding defaultStopWords "cat"

/-- The score every stored chunk of the concrete stores receives against
the query `"cat"` (each stored embedding is the query's own embedding). -/
noncomputable def cexScore : ℝ := cosineSimilarity qCat qCat

/-- Shared metadata of the three same-URL chunks of `cexState`. -/
def cexMeta : ChunkMeta := { url := "u", title := "t" }

/-- Content of the first stored chunk of `cexState`. -/
def cexC1 : String := "alpha beta gamma"

/-- Content of the second and third stored chunks of `cexState`. -/
def cexC2 : String := "delta epsilon zeta"

/-- A store holding three chunks of the same URL: one with content `cexC1`
and two identical ones with content `cexC2` (disjoint from `cexC1`). -/
def cexState : VSState :=
  { documents :=
      [{ id := "doc0_chunk0", content := cexC1, metadata := cexMeta, embedding := qCat },
       { id := "doc1_chunk0", content := cexC2, metadata := cexMeta, embedding := qCat },
       { id := "doc2_chunk0", content := cexC2, metadata := cexMeta, embedding := qCat }],
    inited := true, stopWords := defaultStopWords }

/-- The first query result on `cexState`. -/
noncomputable def cexR1 : ScoredChunk :=
  { content := cexC1, metadata := cexMeta, score := cexScore }

/-- The second and third query results on `cexState` (identical). -/
noncomputable def cexR2 : ScoredChunk :=
  { content := cexC2, metadata := cexMeta, score := cexScore }

/-- A store holding three chunks of pairwise distinct URLs, each of which
scores 1 against the query `"cat"`. -/
def c6State : VSState :=
  { documents :=
      [{ id := "doc0_chunk0", content := "one one one", metadata := { url := "u1", title := "t1" }, embedding := qCat },
       { id := "doc1_chunk0", content := "two two two", metadata := { url := "u2", title := "t2" }, embedding := qCat },
       { id := "doc2_chunk0", content := "три three three", metadata := { url := "u3", title := "t3" }, embedding := qCat }],
    inited := true, stopWords := defaultStopWords }

/-- A 64-character content whose sentence regex matches exactly `"ab."`,
which the sentence tier then discards as too short: the sentence tier
produces no chunk, yet the code never reaches the paragraph fallback. -/
def c3content : String :=
  "ab. xxxxxxxxxxxxxxxxxxxxxxxxxxxxxxxxxxxxxxxxxxxxxxxxxxxxxxxxxxxx"

/-- A content with no sentence terminator at all (60 characters). -/
def c3plain : String :=
  "yyyyyyyyyyyyyyyyyyyyyyyyyyyyyyyyyyyyyyyyyyyyyyyyyyyyyyyyyyyy"

/-- A 4002-character string whose only sentence terminator sits at
position 0: `trimToSentenceBoundary` ignores it (`lastBoundary > 0` is
strict) and hard-cuts mid-sentence. -/
def c5s0 : String := String.mk ('.' :: List.replicate 4001 'a')

/-- A 4003-character string with a terminator at position 2. -/
def c5s2 : String := String.mk ('a' :: 'b' :: '.' :: List.replicate 4000 'a')

set_option maxRecDepth 8000

lemma insertDescBy_perm {α β : Type} [LinearOrder β] (key : α → β) (x : α) :
    ∀ l : List α, (insertDescBy key x l).Perm (x :: l)
  | [] => List.Perm.refl _
  | y :: ys => by
    unfold insertDescBy
    split_ifs with h
    · exact List.Perm.refl _
    · exact ((insertDescBy_perm key x ys).cons y).trans (List.Perm.swap x y ys)

lemma sortDescBy_perm {α β : Type} [LinearOrder β] (key : α → β) :
    ∀ l : List α, (sortDescBy key l).Perm l
  | [] => List.Perm.refl _
  | x :: xs => by
    unfold sortDescBy
    exact (insertDescBy_perm key x (sortDescBy key xs)).trans
      ((sortDescBy_perm key xs).cons x)

lemma mem_insertDescBy {α β : Type} [LinearOrder β] (key : α → β) (x a : α)
    (l : List α) : a ∈ insertDescBy key x l ↔ a = x ∨ a ∈ l := by
  rw [(insertDescBy_perm key x l).mem_iff, List.mem_cons]

lemma insertDescBy_pairwise {α β : Type} [LinearOrder β] (key : α → β) (x : α) :
    ∀ l : List α, l.Pairwise (fun a b => key b ≤ key a) →
      (insertDescBy key x l).Pairwise (fun a b => key b ≤ key a)
  | [], _ => List.pairwise_singleton _ x
  | y :: ys, h => by
    rcases List.pairwise_cons.mp h with ⟨hy, hys⟩
    unfold insertDescBy
    split_ifs with hk
    · refine List.pairwise_cons.mpr ⟨?_, h⟩
      intro b hb
      rcases List.mem_cons.mp hb with rfl | hb
      · exact hk
      · exact le_trans (hy b hb) hk
    · refine List.pairwise_cons.mpr ⟨?_, insertDescBy_pairwise key x ys hys⟩
      intro b hb
      rcases (mem_insertDescBy key x b ys).mp hb with rfl | hb
      · exact le_of_lt (lt_of_not_le hk)
      · exact hy b hb

lemma sortDescBy_pairwise {α β : Type} [LinearOrder β] (key : α → β) :
    ∀ l : List α, (sortDescBy key l).Pairwise (fun a b => key b ≤ key a)
  | [] => List.Pairwise.nil
  | x :: xs => insertDescBy_pairwise key x _ (sortDescBy_pairwise key xs)

lemma sortDescBy_of_allEq {α β : Type} [LinearOrder β] (key : α → β) (c : β) :
    ∀ l : List α, (∀ a ∈ l, key a = c) → sortDescBy key l = l
  | [], _ => rfl
  | x :: xs, h => by
    unfold sortDescBy
    rw [sortDescBy_of_allEq key c xs (fun a ha => h a (List.mem_cons_of_mem x ha))]
    cases xs with
    | nil => rfl
    | cons y ys =>
      unfold insertDescBy
      rw [if_pos]
      rw [h y (by simp), h x (by simp)]

lemma filterAboveThreshold_sublist :
    ∀ l : List ScoredChunk, (filterAboveThreshold l).Sublist l
  | [] => List.Sublist.refl _
  | x :: xs => by
    unfold filterAboveThreshold
    split_ifs with h
    · exact (filterAboveThreshold_sublist xs).cons₂ x
    · exact (filterAboveThreshold_sublist xs).cons x

lemma mem_filterAboveThreshold (c : ScoredChunk) :
    ∀ l : List ScoredChunk, c ∈ filterAboveThreshold l →
      c ∈ l ∧ SIMILARITY_THRESHOLD < c.score
  | [], h => by simp [filterAboveThreshold] at h
  | x :: xs, h => by
    unfold filterAboveThreshold at h
    split_ifs at h with hx
    · rcases List.mem_cons.mp h with rfl | h
      · exact ⟨List.mem_cons_self _ _, hx⟩
      · rcases mem_filterAboveThreshold c xs h with ⟨h1, h2⟩
        exact ⟨List.mem_cons_of_mem x h1, h2⟩
    · rcases mem_filterAboveThreshold c xs h with ⟨h1, h2⟩
      exact ⟨List.mem_cons_of_mem x h1, h2⟩

lemma filterAboveThreshold_of_all :
    ∀ l : List ScoredChunk, (∀ c ∈ l, SIMILARITY_THRESHOLD < c.score) →
      filterAboveThreshold l = l
  | [], _ => rfl
  | x :: xs, h => by
    unfold filterAboveThreshold
    rw [if_pos (h x (List.mem_cons_self x xs)),
      filterAboveThreshold_of_all xs (fun c hc => h c (List.mem_cons_of_mem x hc))]

lemma dedupStep_fst (limit : ℕ) (acc : List ScoredChunk × List String)
    (r : ScoredChunk) :
    (dedupStep limit acc r).1 = acc.1 ∨ (dedupStep limit acc r).1 = acc.1 ++ [r] := by
  unfold dedupStep
  split_ifs with h1 h2
  · rcases hf : acc.1.find? (fun x => x.metadata.url == r.metadata.url) with _ | f
    · simp [hf]
    · simp only [hf]
      split_ifs with h3
      · simp
      · simp
  · simp
  · simp

lemma dedup_fold_sublist (limit : ℕ) :
    ∀ (l : List ScoredChunk) (acc : List ScoredChunk × List String),
      ∃ t, t.Sublist l ∧ (l.foldl (dedupStep limit) acc).1 = acc.1 ++ t
  | [], acc => ⟨[], List.Sublist.refl _, by simp⟩
  | x :: l, acc => by
    rw [List.foldl_cons]
    rcases dedup_fold_sublist limit l (dedupStep limit acc x) with ⟨t, ht, he⟩
    rcases dedupStep_fst limit acc x with h | h
    · exact ⟨t, ht.cons x, by rw [he, h]⟩
    · exact ⟨x :: t, ht.cons₂ x, by rw [he, h, List.append_assoc]; rfl⟩

lemma dedupAccept_sublist (limit : ℕ) (l : List ScoredChunk) :
    (dedupAccept limit l).Sublist l := by
  rcases dedup_fold_sublist limit l ([], []) with ⟨t, ht, he⟩
  unfold dedupAccept
  rw [he]
  simpa using ht

lemma dedup_fold_fresh (limit : ℕ) :
    ∀ (l : List ScoredChunk) (u : List ScoredChunk) (seen : List String),
      (∀ x ∈ l, x.metadata.url ∉ seen) →
      (l.map (fun x => x.metadata.url)).Nodup →
      (l.foldl (dedupStep limit) (u, seen)).1 = u ++ l
  | [], u, seen, _, _ => by simp
  | x :: l, u, seen, hfresh, hnd => by
    rw [List.foldl_cons]
    have hx : x.metadata.url ∉ seen := hfresh x (List.mem_cons_self x l)
    have hstep : dedupStep limit (u, seen) x = (u ++ [x], seen ++ [x.metadata.url]) := by
      unfold dedupStep
      rw [if_neg hx]
    rw [hstep]
    rw [List.map_cons, List.nodup_cons] at hnd
    have hrec := dedup_fold_fresh limit l (u ++ [x]) (seen ++ [x.metadata.url])
      (fun y hy => by
        simp only [List.mem_append, List.mem_singleton]
        rintro (hs | he)
        · exact hfresh y (List.mem_cons_of_mem x hy) hs
        · exact hnd.1 (he ▸ List.mem_map_of_mem (fun z => z.metadata.url) hy))
      hnd.2
    rw [hrec, List.append_assoc]
    rfl

lemma dedupAccept_of_nodup (limit : ℕ) (l : List ScoredChunk)
    (h : (l.map (fun x => x.metadata.url)).Nodup) : dedupAccept limit l = l := by
  unfold dedupAccept
  rw [dedup_fold_fresh limit l [] [] (by simp) h]
  rfl

lemma stopWords_stepOp (s : VSState) (op : VSOp) :
    (stepOp s op).stopWords = s.stopWords := by
  cases op with
  | initOp => rfl
  | closeOp => rfl
  | addOp docs =>
    simp only [stepOp, addDocuments]
    split_ifs <;> rfl
  | queryOp q limit =>
    simp only [stepOp, queryRelevantContent]
    split_ifs <;> rfl

lemma stopWords_runOps (ops : List VSOp) :
    ∀ s : VSState, (runOps s ops).stopWords = s.stopWords := by
  induction ops with
  | nil => intro s; rfl
  | cons op ops ih =>
    intro s
    show (runOps (stepOp s op) ops).stopWords = s.stopWords
    rw [ih, stopWords_stepOp]

/-- Claim C8: `createEmbedding` is deterministic — its result on a text
depends on nothing but the text and the construction-time stop-word set,
so after any two operation histories of the store the embedding of `x`
is the same vector. -/
theorem create_embedding_deterministic (x : String) (ops1 ops2 : List VSOp) :
    createEmbedding (runOps initialState ops1).stopWords x =
      createEmbedding (runOps initialState ops2).stopWords x := by
  rw [stopWords_runOps, stopWords_runOps]

/-- Claim C9: on a store that is not initialized, or whose documents
collection is empty, `queryRelevantContent` returns the empty list
(lazy initialization empties the store, so both cases fail fast). -/
theorem query_empty_on_uninit_store (s : VSState) (q : String) (limit : ℕ)
    (h : s.inited = false ∨ s.documents = []) :
    (queryRelevantContent s q limit).1 = [] := by
  rcases h with h | h
  · simp [queryRelevantContent, h]
  · by_cases hi : s.inited <;> simp [queryRelevantContent, hi, h]

/-- Witness for C9 at the freshly constructed store. -/
theorem query_empty_on_uninit_store_witness :
    (initialState.inited = false ∨ initialState.documents = []) ∧
    (queryRelevantContent initialState "anything" 5).1 = [] :=
  ⟨Or.inl rfl, query_empty_on_uninit_store initialState "anything" 5 (Or.inl rfl)⟩

/-- Claim C10: the predicate "not initialized implies no stored documents"
holds in the initial state and is preserved by `initialize`, `addDocuments`,
`queryRelevantContent` and `close`. -/
theorem uninit_empty_invariant :
    (initialState.inited = false → initialState.documents = []) ∧
    ∀ (s : VSState) (op : VSOp),
      (s.inited = false → s.documents = []) →
      ((stepOp s op).inited = false → (stepOp s op).documents = []) := by
  constructor
  · intro _; rfl
  · intro s op _h
    cases op with
    | initOp => intro hc; simp [stepOp, initStore] at hc
    | closeOp => intro _; rfl
    | addOp docs =>
      intro hc
      exfalso
      by_cases hi : s.inited <;> simp [stepOp, addDocuments, hi] at hc
    | queryOp q limit =>
      intro hc
      exfalso
      simp only [stepOp, queryRelevantContent] at hc
      split_ifs at hc <;> simp_all

lemma sum_map_fst_sq_nonneg (l : List (ℚ × ℚ)) :
    0 ≤ (l.map (fun p => p.1 * p.1)).sum := by
  apply List.sum_nonneg
  intro x hx
  rcases List.mem_map.mp hx with ⟨p, _, rfl⟩
  exact mul_self_nonneg _

lemma sum_map_snd_sq_nonneg (l : List (ℚ × ℚ)) :
    0 ≤ (l.map (fun p => p.2 * p.2)).sum := by
  apply List.sum_nonneg
  intro x hx
  rcases List.mem_map.mp hx with ⟨p, _, rfl⟩
  exact mul_self_nonneg _

lemma list_cauchy_schwarz :
    ∀ l : List (ℚ × ℚ),
      ((l.map (fun p => p.1 * p.2)).sum) ^ 2 ≤
        ((l.map (fun p => p.1 * p.1)).sum) * ((l.map (fun p => p.2 * p.2)).sum)
  | [] => by simp
  | (x, y) :: l => by
    have ih := list_cauchy_schwarz l
    have hA := sum_map_fst_sq_nonneg l
    have hB := sum_map_snd_sq_nonneg l
    simp only [List.map_cons, List.sum_cons]
    set S := (l.map (fun p => p.1 * p.2)).sum with hS
    set A := (l.map (fun p => p.1 * p.1)).sum with hA2
    set B := (l.map (fun p => p.2 * p.2)).sum with hB2
    have h2 : 0 ≤ A * B - S ^ 2 := by nlinarith [ih]
    rcases eq_or_lt_of_le hB with hB0 | hB0
    · have hSz : S = 0 := by nlinarith [sq_nonneg S]
      rw [hSz, ← hB0]
      nlinarith [sq_nonneg (x * y), mul_nonneg hA (mul_self_nonneg y)]
    · nlinarith [sq_nonneg (x * B - y * S), mul_nonneg (sq_nonneg y) h2,
        mul_nonneg (le_of_lt hB0) h2, hB0]

lemma sqnormA_nonneg (a b : List ℚ) : 0 ≤ sqnormA a b :=
  sum_map_fst_sq_nonneg (a.zip b)

lemma sqnormB_nonneg (a b : List ℚ) : 0 ≤ sqnormB a b :=
  sum_map_snd_sq_nonneg (a.zip b)

lemma dotMin_sq_le (a b : List ℚ) :
    (dotMin a b) ^ 2 ≤ sqnormA a b * sqnormB a b :=
  list_cauchy_schwarz (a.zip b)

lemma dotMin_nonneg (a b : List ℚ) (ha : ∀ x ∈ a, 0 ≤ x) (hb : ∀ x ∈ b, 0 ≤ x) :
    0 ≤ dotMin a b := by
  apply List.sum_nonneg
  intro x hx
  rcases List.mem_map.mp hx with ⟨p, hp, rfl⟩
  rcases List.of_mem_zip hp with ⟨h1, h2⟩
  exact mul_nonneg (ha p.1 h1) (hb p.2 h2)

/-- Claim C4: on vectors with non-negative entries the similarity score lies
in `[0, 1]`: the cosine part is in `[0, 1]` by Cauchy-Schwarz and the length
penalty `0.7 + 0.3 * lengthRatio` is in `[0.7, 1]`. -/
theorem cosine_similarity_bounds (a b : List ℚ)
    (ha : ∀ x ∈ a, 0 ≤ x) (hb : ∀ x ∈ b, 0 ≤ x) :
    0 ≤ cosineSimilarity a b ∧ cosineSimilarity a b ≤ 1 := by
  unfold cosineSimilarity
  split_ifs with h
  · norm_num
  · push_neg at h
    obtain ⟨hA0, hB0⟩ := h
    have hA : 0 < sqnormA a b := lt_of_le_of_ne (sqnormA_nonneg a b) (Ne.symm hA0)
    have hB : 0 < sqnormB a b := lt_of_le_of_ne (sqnormB_nonneg a b) (Ne.symm hB0)
    have hAr : (0 : ℝ) < ((sqnormA a b : ℚ) : ℝ) := by exact_mod_cast hA
    have hBr : (0 : ℝ) < ((sqnormB a b : ℚ) : ℝ) := by exact_mod_cast hB
    have hsA : 0 < Real.sqrt ((sqnormA a b : ℚ) : ℝ) := Real.sqrt_pos.mpr hAr
    have hsB : 0 < Real.sqrt ((sqnormB a b : ℚ) : ℝ) := Real.sqrt_pos.mpr hBr
    have hdotr : (0 : ℝ) ≤ ((dotMin a b : ℚ) : ℝ) := by
      exact_mod_cast dotMin_nonneg a b ha hb
    have hcs : ((dotMin a b : ℚ) : ℝ) ≤
        Real.sqrt ((sqnormA a b : ℚ) : ℝ) * Real.sqrt ((sqnormB a b : ℚ) : ℝ) := by
      rw [← Real.sqrt_mul hAr.le]
      apply Real.le_sqrt_of_sq_le
      exact_mod_cast dotMin_sq_le a b
    have hsim0 : 0 ≤ ((dotMin a b : ℚ) : ℝ) /
        (Real.sqrt ((sqnormA a b : ℚ) : ℝ) * Real.sqrt ((sqnormB a b : ℚ) : ℝ)) :=
      div_nonneg hdotr (mul_nonneg hsA.le hsB.le)
    have hsim1 : ((dotMin a b : ℚ) : ℝ) /
        (Real.sqrt ((sqnormA a b : ℚ) : ℝ) * Real.sqrt ((sqnormB a b : ℚ) : ℝ)) ≤ 1 :=
      (div_le_one (mul_pos hsA hsB)).mpr hcs
    have hdpos : (0 : ℝ) < ((max (max (nonZeroCount a) (nonZeroCount b)) 1 : ℕ) : ℝ) := by
      have : 1 ≤ max (max (nonZeroCount a) (nonZeroCount b)) 1 := le_max_right _ _
      exact_mod_cast Nat.lt_of_lt_of_le Nat.zero_lt_one this
    have hnum : ((min (nonZeroCount a) (nonZeroCount b) : ℕ) : ℝ) ≤
        ((max (max (nonZeroCount a) (nonZeroCount b)) 1 : ℕ) : ℝ) := by
      have : min (nonZeroCount a) (nonZeroCount b) ≤
          max (max (nonZeroCount a) (nonZeroCount b)) 1 :=
        le_trans (min_le_left _ _) (le_trans (le_max_left _ _) (le_max_left _ _))
      exact_mod_cast this
    have hR0 : 0 ≤ ((min (nonZeroCount a) (nonZeroCount b) : ℕ) : ℝ) /
        ((max (max (nonZeroCount a) (nonZeroCount b)) 1 : ℕ) : ℝ) :=
      div_nonneg (by positivity) hdpos.le
    have hR1 : ((min (nonZeroCount a) (nonZeroCount b) : ℕ) : ℝ) /
        ((max (max (nonZeroCount a) (nonZeroCount b)) 1 : ℕ) : ℝ) ≤ 1 :=
      (div_le_one hdpos).mpr hnum
    constructor
    · apply mul_nonneg hsim0
      linarith [hR0]
    · nlinarith [hsim0, hsim1, hR0, hR1]

/-- Witness for C4 at the concrete non-negative vectors `[1]` and `[2, 3]`. -/
theorem cosine_similarity_bounds_witness :
    (∀ x ∈ [(1 : ℚ)], 0 ≤ x) ∧ (∀ x ∈ [(2 : ℚ), 3], 0 ≤ x) ∧
    0 ≤ cosineSimilarity [1] [2, 3] ∧ cosineSimilarity [1] [2, 3] ≤ 1 := by
  have h1 : ∀ x ∈ [(1 : ℚ)], 0 ≤ x := by intro x hx; simp at hx; simp [hx]
  have h2 : ∀ x ∈ [(2 : ℚ), 3], 0 ≤ x := by
    intro x hx
    rcases List.mem_cons.mp hx with rfl | hx
    · norm_num
    · simp at hx; simp [hx]
  exact ⟨h1, h2, (cosine_similarity_bounds [1] [2, 3] h1 h2).1,
    (cosine_similarity_bounds [1] [2, 3] h1 h2).2⟩

lemma zip_self_eq_map (v : List ℚ) : v.zip v = v.map (fun x => (x, x)) := by
  induction v with
  | nil => rfl
  | cons x xs ih => rw [List.zip_cons_cons, ih, List.map_cons]

lemma dotMin_self (v : List ℚ) : dotMin v v = sqnormA v v := by
  unfold dotMin sqnormA
  rw [zip_self_eq_map, List.map_map, List.map_map]
  rfl

lemma sqnormB_self (v : List ℚ) : sqnormB v v = sqnormA v v := by
  unfold sqnormB sqnormA
  rw [zip_self_eq_map, List.map_map, List.map_map]
  rfl

lemma cosineSimilarity_self (v : List ℚ) (hv : sqnormA v v ≠ 0)
    (hnz : 0 < nonZeroCount v) : cosineSimilarity v v = 1 := by
  unfold cosineSimilarity
  rw [if_neg (by simp [hv, sqnormB_self])]
  rw [dotMin_self, sqnormB_self]
  have hpos : (0 : ℝ) < ((sqnormA v v : ℚ) : ℝ) := by
    have := lt_of_le_of_ne (sqnormA_nonneg v v) (Ne.symm hv)
    exact_mod_cast this
  rw [Real.mul_self_sqrt hpos.le, div_self hpos.ne']
  rw [min_self, max_self, Nat.max_eq_left hnz]
  rw [div_self (by exact_mod_cast hnz.ne')]
  norm_num

lemma scoreChunk_score (stop : List String) (q : String) (doc : StoredDoc) :
    (scoreChunk stop q doc).score =
      cosineSimilarity (createEmbedding stop q) doc.embedding := by
  simp only [scoreChunk]

lemma scoreChunk_metadata (stop : List String) (q : String) (doc : StoredDoc) :
    (scoreChunk stop q doc).metadata = doc.metadata := by
  simp only [scoreChunk]

lemma scoreChunk_content (stop : List String) (q : String) (doc : StoredDoc) :
    (scoreChunk stop q doc).content = doc.content := by
  simp only [scoreChunk]

lemma query_fst_of_inited (s : VSState) (q : String) (limit : ℕ)
    (hi : s.inited = true) (hne : s.documents.isEmpty = false) :
    (queryRelevantContent s q limit).1 =
      (dedupAccept limit (filterAboveThreshold (sortDescBy ScoredChunk.score
        (s.documents.map (scoreChunk s.stopWords q))))).take limit := by
  unfold queryRelevantContent
  simp [hi, hne]

/-- Claim C1: every chunk returned by `queryRelevantContent` has score
strictly above the 0.275 similarity threshold — the deduplicated list is a
sublist of the threshold-filtered list. -/
theorem vectorstore_query_threshold (s : VSState) (q : String) (limit : ℕ)
    (c : ScoredChunk) (hc : c ∈ (queryRelevantContent s q limit).1) :
    (0.275 : ℝ) < c.score := by
  by_cases hi : s.inited
  · by_cases he : s.documents.isEmpty
    · rw [query_empty_on_uninit_store s q limit
        (Or.inr (List.isEmpty_iff.mp he))] at hc
      simp at hc
    · rw [query_fst_of_inited s q limit hi (Bool.not_eq_true _ ▸ he)] at hc
      have h2 := List.take_subset limit _ hc
      have h3 := (dedupAccept_sublist limit _).subset h2
      have h4 := mem_filterAboveThreshold c _ h3
      simpa [SIMILARITY_THRESHOLD] using h4.2
  · rw [query_empty_on_uninit_store s q limit
      (Or.inl (Bool.not_eq_true _ ▸ hi))] at hc
    simp at hc

set_option maxHeartbeats 1000000 in
/-- Claim C6: the returned list is sorted non-increasingly by score and has
at most `limit` entries; when the stored chunks have pairwise distinct URLs
and all score above the threshold, exactly `min limit n` of the `n` stored
chunks come back (so 3 chunks with distinct URLs and `limit = 5` all return,
highest score first). -/
theorem query_sorted_limit (s : VSState) (q : String) (limit : ℕ) :
    ((queryRelevantContent s q limit).1.Pairwise (fun a b => b.score ≤ a.score)) ∧
    (queryRelevantContent s q limit).1.length ≤ limit ∧
    (s.inited = true →
      (s.documents.map (fun d => d.metadata.url)).Nodup →
      (∀ d ∈ s.documents, SIMILARITY_THRESHOLD < (scoreChunk s.stopWords q d).score) →
      (queryRelevantContent s q limit).1.length = min limit s.documents.length) := by
  by_cases hi : s.inited
  · by_cases he : s.documents.isEmpty
    · have hdocs : s.documents = [] := List.isEmpty_iff.mp he
      rw [query_empty_on_uninit_store s q limit (Or.inr hdocs)]
      refine ⟨List.Pairwise.nil, by simp, ?_⟩
      intro _ _ _
      simp [hdocs]
    · have heq := query_fst_of_inited s q limit hi (Bool.not_eq_true _ ▸ he)
      set sims := s.documents.map (scoreChunk s.stopWords q) with hsims
      have hsorted := sortDescBy_pairwise ScoredChunk.score sims
      have hperm := sortDescBy_perm ScoredChunk.score sims
      refine ⟨?_, ?_, ?_⟩
      · rw [heq]
        exact hsorted.sublist ((List.take_sublist _ _).trans
          ((dedupAccept_sublist _ _).trans
            (filterAboveThreshold_sublist _)))
      · rw [heq, List.length_take]
        exact min_le_left _ _
      · intro _ hnd hscore
        have hall : ∀ x ∈ sortDescBy ScoredChunk.score sims,
            SIMILARITY_THRESHOLD < x.score := by
          intro x hx
          have hx2 : x ∈ sims := hperm.mem_iff.mp hx
          rw [hsims] at hx2
          rcases List.mem_map.mp hx2 with ⟨d, hd, rfl⟩
          exact hscore d hd
        have hfilter := filterAboveThreshold_of_all _ hall
        have hmapurl : sims.map (fun x => x.metadata.url) =
            s.documents.map (fun d => d.metadata.url) := by
          rw [hsims, List.map_map]
          rfl
        have hnd2 : ((sortDescBy ScoredChunk.score sims).map
            (fun x => x.metadata.url)).Nodup :=
          ((hperm.map (fun x => x.metadata.url)).nodup_iff).mpr (hmapurl ▸ hnd)
        have hdedup := dedupAccept_of_nodup limit _ hnd2
        have hlen : sims.length = s.documents.length := by
          rw [hsims, List.length_map]
        rw [heq, hfilter, hdedup, List.length_take, hperm.length_eq, hlen]
  · have hres := query_empty_on_uninit_store s q limit
      (Or.inl (Bool.not_eq_true _ ▸ hi))
    rw [hres]
    refine ⟨List.Pairwise.nil, by simp, ?_⟩
    intro hit
    rw [hit] at hi
    simp at hi

lemma append_singleton_decomp {α : Type} (u : List α) (x : α) (pre : List α)
    (c : α) (post : List α) (h : u ++ [x] = pre ++ c :: post) :
    (pre = u ∧ c = x ∧ post = []) ∨
      ∃ post0, post = post0 ++ [x] ∧ u = pre ++ c :: post0 := by
  rcases List.eq_nil_or_concat post with rfl | ⟨q0, y, rfl⟩
  · left
    obtain ⟨h1, h2⟩ := List.append_inj' h (by simp)
    refine ⟨h1.symm, ?_, rfl⟩
    simpa using h2.symm
  · right
    rw [List.concat_eq_append] at h
    rw [show pre ++ c :: (q0 ++ [y]) = (pre ++ c :: q0) ++ [y] by simp] at h
    obtain ⟨h1, h2⟩ := List.append_inj' h (by simp)
    have hy : y = x := by simpa using h2.symm
    exact ⟨q0, by rw [List.concat_eq_append, hy], h1⟩

lemma ndfo_nil : NoDupFirstOverlap [] := by
  intro pre c post f h _
  exfalso
  have := congrArg List.length h
  simp only [List.length_nil, List.length_append, List.length_cons] at this
  omega

lemma ndfo_append (u : List ScoredChunk) (x : ScoredChunk)
    (hu : NoDupFirstOverlap u)
    (hx : ∀ f, u.find? (fun r => r.metadata.url == x.metadata.url) = some f →
      contentSimilarity f.content x.content < 0.5) :
    NoDupFirstOverlap (u ++ [x]) := by
  intro pre c post f hsplit hfind
  rcases append_singleton_decomp u x pre c post hsplit with
    ⟨rfl, rfl, rfl⟩ | ⟨post0, rfl, rfl⟩
  · exact hx f hfind
  · exact hu pre c post0 f rfl hfind

lemma ndfo_take (l : List ScoredChunk) (n : ℕ) (h : NoDupFirstOverlap l) :
    NoDupFirstOverlap (l.take n) := by
  intro pre c post f hsplit hfind
  have hdec : l = pre ++ c :: (post ++ l.drop n) := by
    conv_lhs => rw [← List.take_append_drop n l]
    rw [hsplit]
    simp
  exact h pre c (post ++ l.drop n) f hdec hfind

lemma dedup_fold_ndfo (limit : ℕ) :
    ∀ (l : List ScoredChunk) (u : List ScoredChunk) (seen : List String),
      NoDupFirstOverlap u →
      (∀ url, url ∈ seen ↔ url ∈ u.map (fun c => c.metadata.url)) →
      NoDupFirstOverlap (l.foldl (dedupStep limit) (u, seen)).1
  | [], _, _, hu, _ => hu
  | x :: l, u, seen, hu, hseen => by
    rw [List.foldl_cons]
    by_cases hmem : x.metadata.url ∈ seen
    · by_cases hlim : u.length < limit
      · rcases hf : u.find? (fun r => r.metadata.url == x.metadata.url) with _ | ex
        · have hstep : dedupStep limit (u, seen) x = (u, seen) := by
            unfold dedupStep
            rw [if_pos hmem, if_pos hlim, hf]
          rw [hstep]
          exact dedup_fold_ndfo limit l u seen hu hseen
        · by_cases hov : contentSimilarity ex.content x.content < 0.5
          · have hstep : dedupStep limit (u, seen) x = (u ++ [x], seen) := by
              unfold dedupStep
              rw [if_pos hmem, if_pos hlim, hf]
              dsimp only
              rw [if_pos hov]
            rw [hstep]
            apply dedup_fold_ndfo limit l (u ++ [x]) seen
            · apply ndfo_append u x hu
              intro f hfind
              rw [hf] at hfind
              cases hfind
              exact hov
            · intro url
              rw [hseen url]
              constructor
              · intro hm
                simp only [List.map_append, List.mem_append]
                exact Or.inl hm
              · intro hm
                rcases (by simpa using hm : url ∈ u.map (fun c => c.metadata.url) ∨
                    url = x.metadata.url) with hm2 | hm2
                · exact hm2
                · rw [hm2]
                  exact (hseen _).mp hmem
          · have hstep : dedupStep limit (u, seen) x = (u, seen) := by
              unfold dedupStep
              rw [if_pos hmem, if_pos hlim, hf]
              dsimp only
              rw [if_neg hov]
            rw [hstep]
            exact dedup_fold_ndfo limit l u seen hu hseen
      · have hstep : dedupStep limit (u, seen) x = (u, seen) := by
          unfold dedupStep
          rw [if_pos hmem, if_neg hlim]
        rw [hstep]
        exact dedup_fold_ndfo limit l u seen hu hseen
    · have hstep : dedupStep limit (u, seen) x =
          (u ++ [x], seen ++ [x.metadata.url]) := by
        unfold dedupStep
        rw [if_neg hmem]
      rw [hstep]
      apply dedup_fold_ndfo limit l (u ++ [x]) (seen ++ [x.metadata.url])
      · apply ndfo_append u x hu
        intro f hfind
        exfalso
        have hfm := List.mem_of_find?_eq_some hfind
        have hfe := List.find?_some hfind
        simp only [beq_iff_eq] at hfe
        have : x.metadata.url ∈ u.map (fun c => c.metadata.url) := by
          rw [← hfe]
          exact List.mem_map_of_mem _ hfm
        exact hmem ((hseen _).mpr this)
      · intro url
        simp only [List.mem_append, List.map_append, List.mem_singleton]
        rw [hseen url]
        simp

lemma ndfo_query (s : VSState) (q : String) (limit : ℕ) :
    NoDupFirstOverlap (queryRelevantContent s q limit).1 := by
  by_cases hi : s.inited
  · by_cases he : s.documents.isEmpty
    · rw [query_empty_on_uninit_store s q limit (Or.inr (List.isEmpty_iff.mp he))]
      exact ndfo_nil
    · rw [query_fst_of_inited s q limit hi (Bool.not_eq_true _ ▸ he)]
      apply ndfo_take
      unfold dedupAccept
      apply dedup_fold_ndfo limit _ [] [] ndfo_nil
      intro url
      simp
  · rw [query_empty_on_uninit_store s q limit (Or.inl (Bool.not_eq_true _ ▸ hi))]
    exact ndfo_nil

/-- Claim C2 (amended): a later-accepted chunk of an already-seen URL always
has word-overlap below 0.5 with the FIRST accepted chunk of that URL (the
code only ever compares against the first; pairs of two later chunks are
not constrained). -/
theorem vectorstore_dedup_first_overlap (s : VSState) (q : String)
    (limit : ℕ) (pre : List ScoredChunk) (c : ScoredChunk)
    (post : List ScoredChunk) (f : ScoredChunk)
    (h1 : (queryRelevantContent s q limit).1 = pre ++ c :: post)
    (h2 : pre.find? (fun r => r.metadata.url == c.metadata.url) = some f) :
    contentSimilarity f.content c.content < 0.5 :=
  ndfo_query s q limit pre c post f h1 h2

lemma createEmbedding_cat :
    createEmbedding defaultStopWords "cat" =
      (1 * (1 - ((min 0 100 : ℕ) : ℚ) / 100 * 0.5) / ((1 : ℕ) : ℚ)) ::
        List.replicate 383 0 := by
  rfl

lemma qCat_val : qCat = (1 : ℚ) :: List.replicate 383 0 := by
  rw [qCat, createEmbedding_cat]
  norm_num

lemma sqnormA_cons (x y : ℚ) (a b : List ℚ) :
    sqnormA (x :: a) (y :: b) = x * x + sqnormA a b := by
  simp [sqnormA]

lemma sqnormA_replicate_zero :
    ∀ n : ℕ, sqnormA (List.replicate n (0 : ℚ)) (List.replicate n 0) = 0
  | 0 => rfl
  | n + 1 => by
    rw [List.replicate_succ, sqnormA_cons, sqnormA_replicate_zero n]
    norm_num

lemma sqnormA_qCat : sqnormA qCat qCat = 1 := by
  rw [qCat_val, sqnormA_cons, sqnormA_replicate_zero]
  norm_num

lemma nonZeroCount_cons_pos (x : ℚ) (l : List ℚ) (h : 0 < x) :
    nonZeroCount (x :: l) = nonZeroCount l + 1 := by
  simp [nonZeroCount, List.filter_cons, h]

lemma nonZeroCount_replicate_zero :
    ∀ n : ℕ, nonZeroCount (List.replicate n (0 : ℚ)) = 0
  | 0 => rfl
  | n + 1 => by
    rw [List.replicate_succ]
    have h0 : decide ((0 : ℚ) < 0) = false := by simp
    simp only [nonZeroCount, List.filter_cons, h0]
    exact nonZeroCount_replicate_zero n

lemma nonZeroCount_qCat : nonZeroCount qCat = 1 := by
  rw [qCat_val, nonZeroCount_cons_pos _ _ one_pos, nonZeroCount_replicate_zero]

lemma cexScore_eq_one : cexScore = 1 := by
  unfold cexScore
  exact cosineSimilarity_self qCat (by rw [sqnormA_qCat]; norm_num)
    (by rw [nonZeroCount_qCat]; norm_num)

lemma threshold_lt_cexScore : SIMILARITY_THRESHOLD < cexScore := by
  rw [cexScore_eq_one]
  norm_num [SIMILARITY_THRESHOLD]

lemma cex_overlap_lt : contentSimilarity cexR1.content cexR2.content < 0.5 := by
  have h : contentSimilarity cexR1.content cexR2.content =
      ((0 : ℕ) : ℚ) / ((6 : ℕ) : ℚ) := by rfl
  rw [h]
  norm_num

lemma cex_overlap_self : ¬ contentSimilarity cexR2.content cexR2.content < 0.5 := by
  have h : contentSimilarity cexR2.content cexR2.content =
      ((3 : ℕ) : ℚ) / ((3 : ℕ) : ℚ) := by rfl
  rw [h]
  norm_num

lemma cex_map_eval :
    cexState.documents.map (scoreChunk cexState.stopWords "cat") =
      [cexR1, cexR2, cexR2] := by
  simp only [cexState, List.map_cons, List.map_nil, scoreChunk, cexR1, cexR2,
    cexScore, qCat]

lemma cex_scores_all (a : ScoredChunk) (ha : a ∈ [cexR1, cexR2, cexR2]) :
    ScoredChunk.score a = cexScore := by
  rcases List.mem_cons.mp ha with rfl | ha
  · rfl
  · rcases List.mem_cons.mp ha with rfl | ha
    · rfl
    · rcases List.mem_cons.mp ha with rfl | ha
      · rfl
      · simp at ha

lemma cex_query_eval :
    (queryRelevantContent cexState "cat" 5).1 = [cexR1, cexR2, cexR2] := by
  rw [query_fst_of_inited cexState "cat" 5 rfl rfl]
  rw [cex_map_eval]
  rw [sortDescBy_of_allEq ScoredChunk.score cexScore _ cex_scores_all]
  rw [filterAboveThreshold_of_all _
    (fun c hc => (cex_scores_all c hc) ▸ threshold_lt_cexScore)]
  have hurl1 : cexR1.metadata.url = "u" := rfl
  have hurl2 : cexR2.metadata.url = "u" := rfl
  have hstep1 : dedupStep 5 ([], []) cexR1 = ([cexR1], ["u"]) := by
    unfold dedupStep
    rw [if_neg (by simp)]
    rw [hurl1]
    simp
  have hfind1 : List.find? (fun r => r.metadata.url == cexR2.metadata.url)
      [cexR1] = some cexR1 :=
    List.find?_cons_of_pos _ (by rw [hurl1, hurl2]; simp)
  have hstep2 : dedupStep 5 ([cexR1], ["u"]) cexR2 = ([cexR1, cexR2], ["u"]) := by
    unfold dedupStep
    rw [if_pos (by rw [hurl2]; simp)]
    rw [if_pos (by norm_num)]
    rw [hfind1]
    dsimp only
    rw [if_pos cex_overlap_lt]
    simp
  have hfind2 : List.find? (fun r => r.metadata.url == cexR2.metadata.url)
      [cexR1, cexR2] = some cexR1 :=
    List.find?_cons_of_pos _ (by rw [hurl1, hurl2]; simp)
  have hstep3 : dedupStep 5 ([cexR1, cexR2], ["u"]) cexR2 =
      ([cexR1, cexR2, cexR2], ["u"]) := by
    unfold dedupStep
    rw [if_pos (by rw [hurl2]; simp)]
    rw [if_pos (by norm_num)]
    rw [hfind2]
    dsimp only
    rw [if_pos cex_overlap_lt]
    simp
  unfold dedupAccept
  rw [List.foldl_cons, hstep1, List.foldl_cons, hstep2, List.foldl_cons, hstep3,
    List.foldl_nil]
  simp

/-- Counterexample to claim C2 as stated: on `cexState` the query returns
three same-URL chunks `[cexR1, cexR2, cexR2]`; the second and third are a
pair of distinct positions with the same URL whose word-overlap is 1, not
below 0.5 — the code only ever compared each of them against `cexR1`. -/
theorem vectorstore_dedup_pairwise_counterexample :
    ¬ ((queryRelevantContent cexState "cat" 5).1.Pairwise
      (fun a b => a.metadata.url = b.metadata.url →
        contentSimilarity a.content b.content < 0.5)) := by
  rw [cex_query_eval]
  intro h
  rcases List.pairwise_cons.mp h with ⟨_, h2⟩
  rcases List.pairwise_cons.mp h2 with ⟨h3, _⟩
  exact cex_overlap_self (h3 cexR2 (List.mem_singleton.mpr rfl) rfl)

/-- Witness for the amended C2 on `cexState`: the second chunk of URL `"u"`
is checked against the first accepted chunk `cexR1` and their overlap is
below 0.5. -/
theorem vectorstore_dedup_first_overlap_witness :
    (queryRelevantContent cexState "cat" 5).1 = [cexR1] ++ cexR2 :: [cexR2] ∧
    [cexR1].find? (fun r => r.metadata.url == cexR2.metadata.url) = some cexR1 ∧
    contentSimilarity cexR1.content cexR2.content < 0.5 := by
  have h1 : (queryRelevantContent cexState "cat" 5).1 = [cexR1] ++ cexR2 :: [cexR2] := by
    rw [cex_query_eval]
    rfl
  have h2 : [cexR1].find? (fun r => r.metadata.url == cexR2.metadata.url) =
      some cexR1 := List.find?_cons_of_pos _ rfl
  exact ⟨h1, h2, vectorstore_dedup_first_overlap cexState "cat" 5 [cexR1] cexR2
    [cexR2] cexR1 h1 h2⟩

/-- Witness for C1 on `cexState`: the returned chunk `cexR1` scores above
0.275. -/
theorem vectorstore_query_threshold_witness :
    cexR1 ∈ (queryRelevantContent cexState "cat" 5).1 ∧ (0.275 : ℝ) < cexR1.score := by
  have hm : cexR1 ∈ (queryRelevantContent cexState "cat" 5).1 := by
    rw [cex_query_eval]
    exact List.mem_cons_self _ _
  exact ⟨hm, vectorstore_query_threshold cexState "cat" 5 cexR1 hm⟩

/-- Witness for C10: the invariant holds initially and survives a `close`. -/
theorem uninit_empty_invariant_witness :
    (initialState.inited = false → initialState.documents = []) ∧
    ((stepOp initialState VSOp.closeOp).inited = false →
      (stepOp initialState VSOp.closeOp).documents = []) :=
  ⟨uninit_empty_invariant.1,
    uninit_empty_invariant.2 initialState VSOp.closeOp (fun _ => rfl)⟩

/-- Witness for C6 on `c6State`: three chunks with pairwise distinct URLs,
each scoring 1 against the query, are all returned with `limit = 5`. -/
theorem query_sorted_limit_witness :
    c6State.inited = true ∧
    (c6State.documents.map (fun d => d.metadata.url)).Nodup ∧
    (∀ d ∈ c6State.documents,
      SIMILARITY_THRESHOLD < (scoreChunk c6State.stopWords "cat" d).score) ∧
    (queryRelevantContent c6State "cat" 5).1.length = min 5 c6State.documents.length := by
  have h1 : c6State.inited = true := rfl
  have h2 : (c6State.documents.map (fun d => d.metadata.url)).Nodup := by
    simp [c6State]
  have h3 : ∀ d ∈ c6State.documents,
      SIMILARITY_THRESHOLD < (scoreChunk c6State.stopWords "cat" d).score := by
    intro d hd
    rcases List.mem_cons.mp hd with rfl | hd
    · rw [scoreChunk_score]
      exact threshold_lt_cexScore
    · rcases List.mem_cons.mp hd with rfl | hd
      · rw [scoreChunk_score]
        exact threshold_lt_cexScore
      · rcases List.mem_cons.mp hd with rfl | hd
        · rw [scoreChunk_score]
          exact threshold_lt_cexScore
        · simp at hd
  exact ⟨h1, h2, h3, (query_sorted_limit c6State "cat" 5).2.2 h1 h2 h3⟩

lemma foldl_preserve {α β : Type} (P : β → Prop) (f : β → α → β)
    (hf : ∀ b a, P b → P (f b a)) :
    ∀ (l : List α) (b : β), P b → P (l.foldl f b)
  | [], _, hb => hb
  | x :: l, b, hb => foldl_preserve P f hf l (f b x) (hf b x hb)

lemma addFeat_snd_nonneg (k : String) (w : ℚ) (hw : 0 ≤ w) :
    ∀ l : List (String × ℚ), (∀ p ∈ l, 0 ≤ p.2) →
      ∀ p ∈ addFeat l k w, 0 ≤ p.2
  | [], _, p, hp => by
    unfold addFeat at hp
    rcases List.mem_singleton.mp hp with rfl
    exact hw
  | (k0, v) :: rest, hl, p, hp => by
    unfold addFeat at hp
    split_ifs at hp with hk
    · rcases List.mem_cons.mp hp with rfl | hp
      · exact add_nonneg (hl (k0, v) (List.mem_cons_self _ _)) hw
      · exact hl p (List.mem_cons_of_mem _ hp)
    · rcases List.mem_cons.mp hp with rfl | hp
      · exact hl (k0, v) (List.mem_cons_self _ _)
      · exact addFeat_snd_nonneg k w hw rest
          (fun p2 hp2 => hl p2 (List.mem_cons_of_mem _ hp2)) p hp

lemma posweight_snd_nonneg (words : List String) (q : String × ℚ)
    (h : 0 ≤ q.2) :
    0 ≤ (match words.findIdx? (fun w => w == q.1 || q.1.startsWith (w ++ "_")) with
      | some firstPosition =>
          (q.1, q.2 * (1 - (((min firstPosition 100 : ℕ) : ℚ) / 100) * 0.5))
      | none => q).2 := by
  cases hfi : words.findIdx? (fun w => w == q.1 || q.1.startsWith (w ++ "_")) with
  | none => exact h
  | some i =>
    have hle : ((min i 100 : ℕ) : ℚ) ≤ 100 := by
      exact_mod_cast min_le_right i 100
    have hge : (0 : ℚ) ≤ ((min i 100 : ℕ) : ℚ) := by positivity
    exact mul_nonneg h (by linarith)

/-- Claim C7: `createEmbedding` always returns a vector of length exactly
384 whose entries are all non-negative. -/
theorem create_embedding_dim_nonneg (stop : List String) (text : String) :
    (createEmbedding stop text).length = 384 ∧
    ∀ x ∈ createEmbedding stop text, 0 ≤ x := by
  have key : ∀ (tops : List (String × ℚ)) (nz : ℚ), tops.length ≤ 384 → 0 < nz →
      (∀ p ∈ tops, 0 ≤ p.2) →
      ((tops.map (fun p : String × ℚ => p.2 / nz) ++
          List.replicate (384 - tops.length) 0).length = 384 ∧
        ∀ x ∈ tops.map (fun p : String × ℚ => p.2 / nz) ++
          List.replicate (384 - tops.length) 0, 0 ≤ x) := by
    intro tops nz hlen hnz htops
    constructor
    · rw [List.length_append, List.length_map, List.length_replicate]
      omega
    · intro x hx
      rcases List.mem_append.mp hx with hx | hx
      · rcases List.mem_map.mp hx with ⟨p, hp, rfl⟩
        exact div_nonneg (htops p hp) hnz.le
      · rw [List.eq_of_mem_replicate hx]
  simp only [createEmbedding]
  refine key _ _ ?_ ?_ ?_
  · rw [List.length_take]
    exact min_le_left _ _
  · split_ifs with h
    · norm_num
    · exact_mod_cast Nat.pos_of_ne_zero h
  · intro p hp
    have hp2 := (sortDescBy_perm Prod.snd _).mem_iff.mp (List.take_subset _ _ hp)
    rcases List.mem_map.mp hp2 with ⟨q, hq, rfl⟩
    have hq2 : 0 ≤ q.2 := by
      refine foldl_preserve
        (fun acc : List (String × ℚ) => ∀ p2 ∈ acc, 0 ≤ p2.2) _ ?_ _ _ ?_ q hq
      · intro acc pr hacc
        split_ifs with hc
        · exact addFeat_snd_nonneg _ _ (by norm_num) acc hacc
        · exact hacc
      · refine foldl_preserve
          (fun acc : List (String × ℚ) => ∀ p2 ∈ acc, 0 ≤ p2.2) _ ?_ _ _ ?_
        · intro acc w hacc
          split_ifs with hc
          · exact addFeat_snd_nonneg _ _ (by norm_num) acc hacc
          · exact hacc
        · intro p2 hp2x
          simp at hp2x
    exact posweight_snd_nonneg _ q hq2

/-- Witness for C7 at the text `"cat"`: the vector has length 384 and its
head entry 1 is non-negative. -/
theorem create_embedding_dim_nonneg_witness :
    (createEmbedding defaultStopWords "cat").length = 384 ∧
    (1 : ℚ) ∈ createEmbedding defaultStopWords "cat" ∧ (0 : ℚ) ≤ 1 := by
  have hmem : (1 : ℚ) ∈ createEmbedding defaultStopWords "cat" := by
    rw [show createEmbedding defaultStopWords "cat" = qCat from rfl, qCat_val]
    exact List.mem_cons_self _ _
  exact ⟨(create_embedding_dim_nonneg defaultStopWords "cat").1, hmem,
    (create_embedding_dim_nonneg defaultStopWords "cat").2 1 hmem⟩

/-- Counterexample to claim C3 as stated: `c3content`'s sentence regex
matches `"ab."`, every matched sentence is discarded as too short (so the
sentence tier yields zero usable chunks), yet chunking returns `[]` instead
of the paragraph fallback's one 64-character chunk — the fallback is only
reached when the regex finds no sentence at all. -/
theorem chunking_fallback_counterexample :
    sentenceTierChunks c3content = [] ∧
    chunksOf c3content ≠ fallbackChunks c3content := by
  constructor
  · decide
  · decide

/-- Claim C3 (amended): when the sentence regex finds no match at all,
chunking equals the fallback chain — paragraph splitting, then 200-word
windows when at most one usable paragraph remains and the content exceeds
500 characters. -/
theorem chunking_fallback_chain (content : String)
    (h : matchSentences content = []) :
    chunksOf content = fallbackChunks content := by
  simp only [chunksOf, fallbackChunks, paragraphChunks, wordWindowChunks, h]
  simp

/-- Witness for the amended C3 at a 60-character terminator-free content. -/
theorem chunking_fallback_chain_witness :
    matchSentences c3plain = [] ∧ chunksOf c3plain = fallbackChunks c3plain := by
  have h : matchSentences c3plain = [] := by decide
  exact ⟨h, chunking_fallback_chain c3plain h⟩

lemma lastIdxFrom_spec (d : List Char) (c : Char) :
    ∀ i : ℕ, lastIdxFrom d c i = -1 ∨
      ∃ j : ℕ, lastIdxFrom d c i = (j : Int) ∧ j ≤ i ∧ d.getD j ' ' = c
  | 0 => by
    unfold lastIdxFrom
    split_ifs with h
    · exact Or.inr ⟨0, rfl, le_refl 0, h⟩
    · exact Or.inl rfl
  | i + 1 => by
    unfold lastIdxFrom
    split_ifs with h
    · exact Or.inr ⟨i + 1, rfl, le_refl _, h⟩
    · rcases lastIdxFrom_spec d c i with h2 | ⟨j, hj, hle, hc⟩
      · exact Or.inl h2
      · exact Or.inr ⟨j, hj, Nat.le_succ_of_le hle, hc⟩

lemma lastIdxFrom_ge (d : List Char) (c : Char) (p : ℕ)
    (hp : d.getD p ' ' = c) :
    ∀ i : ℕ, p ≤ i → (p : Int) ≤ lastIdxFrom d c i
  | 0, h0 => by
    have hp0 : p = 0 := Nat.le_zero.mp h0
    subst hp0
    unfold lastIdxFrom
    rw [if_pos hp]
    norm_num
  | i + 1, hle => by
    unfold lastIdxFrom
    split_ifs with h
    · exact_mod_cast hle
    · have hpi : p ≤ i := by
        rcases eq_or_lt_of_le hle with rfl | hlt
        · exact absurd hp h
        · exact Nat.lt_succ_iff.mp hlt
      exact lastIdxFrom_ge d c p hp i hpi

lemma lastIndexOfWithin_spec (s : String) (c : Char) (k : ℕ) :
    lastIndexOfWithin s c k = -1 ∨
      ∃ j : ℕ, lastIndexOfWithin s c k = (j : Int) ∧ j ≤ min k (s.length - 1) ∧
        s.data.getD j ' ' = c := by
  unfold lastIndexOfWithin
  split_ifs with h
  · exact Or.inl rfl
  · exact lastIdxFrom_spec s.data c (min k (s.length - 1))

lemma lastIndexOfWithin_ge (s : String) (c : Char) (k p : ℕ)
    (hp : s.data.getD p ' ' = c) (hpk : p ≤ k) (hplen : p < s.length) :
    (p : Int) ≤ lastIndexOfWithin s c k := by
  unfold lastIndexOfWithin
  have hne : ¬ s.data.isEmpty = true := by
    intro hie
    have h0 : s.length = 0 := by
      rw [show s.length = s.data.length from rfl, List.isEmpty_iff.mp hie]
      rfl
    omega
  rw [if_neg hne]
  exact lastIdxFrom_ge s.data c p hp _ (le_min hpk (Nat.le_sub_one_of_lt hplen))

lemma getLast?_cons_of_ne (c : Char) (l : List Char) (h : l ≠ []) :
    (c :: l).getLast? = l.getLast? := by
  cases l with
  | nil => exact absurd rfl h
  | cons d ds => simp [List.getLast?_cons]

lemma getLast?_replicate (a : Char) :
    ∀ n : ℕ, (List.replicate (n + 1) a).getLast? = some a
  | 0 => rfl
  | n + 1 => by
    rw [List.replicate_succ]
    rw [getLast?_cons_of_ne a _ (by simp)]
    exact getLast?_replicate a n

lemma getLast?_take_succ : ∀ (l : List Char) (j : ℕ), j < l.length →
    (l.take (j + 1)).getLast? = some (l.getD j ' ')
  | [], j, h => by simp at h
  | c :: cs, 0, _ => by simp
  | c :: cs, j + 1, h => by
    rw [List.take_succ_cons]
    have hlt : j < cs.length := Nat.lt_of_succ_lt_succ (by simpa using h)
    have ih := getLast?_take_succ cs j hlt
    have hne : cs.take (j + 1) ≠ [] := by
      intro h0
      rw [h0] at ih
      simp at ih
    rw [getLast?_cons_of_ne c _ hne, ih, List.getD_cons_succ]

/-- Claim C5 (amended): `trimToSentenceBoundary` returns a string of at most
4000 characters unchanged; and on a longer string containing a terminator at
a position `p` with `1 ≤ p ≤ 4000` the result ends exactly at a terminator
(the code ignores a terminator at position 0: `lastBoundary > 0` is strict). -/
theorem trim_boundary_correct :
    (∀ s : String, s.length ≤ 4000 → trimToSentenceBoundary s 4000 = s) ∧
    (∀ s : String, 4000 < s.length →
      (∃ p : ℕ, 1 ≤ p ∧ p ≤ 4000 ∧ isTermChar (s.data.getD p ' ') = true) →
      ∃ c : Char, isTermChar c = true ∧
        (trimToSentenceBoundary s 4000).data.getLast? = some c) := by
  constructor
  · intro s h
    simp only [trimToSentenceBoundary]
    rw [if_pos h]
  · rintro s hlen ⟨p, hp1, hp4000, hterm⟩
    have hplen : p < s.length := lt_of_le_of_lt hp4000 hlen
    have hch3 : s.data.getD p ' ' = '.' ∨ s.data.getD p ' ' = '!' ∨
        s.data.getD p ' ' = '?' := by simpa [isTermChar] using hterm
    have hmax : (p : Int) ≤
        max (max (lastIndexOfWithin s '.' 4000) (lastIndexOfWithin s '!' 4000))
          (lastIndexOfWithin s '?' 4000) := by
      rcases hch3 with h0 | h0 | h0
      · exact le_trans (lastIndexOfWithin_ge s '.' 4000 p h0 hp4000 hplen)
          (le_trans (le_max_left _ _) (le_max_left _ _))
      · exact le_trans (lastIndexOfWithin_ge s '!' 4000 p h0 hp4000 hplen)
          (le_trans (le_max_right _ _) (le_max_left _ _))
      · exact le_trans (lastIndexOfWithin_ge s '?' 4000 p h0 hp4000 hplen)
          (le_max_right _ _)
    have hpos : (0 : Int) <
        max (max (lastIndexOfWithin s '.' 4000) (lastIndexOfWithin s '!' 4000))
          (lastIndexOfWithin s '?' 4000) :=
      lt_of_lt_of_le (by exact_mod_cast hp1) hmax
    obtain ⟨c0, hc0, hvq⟩ : ∃ c0 : Char, isTermChar c0 = true ∧
        max (max (lastIndexOfWithin s '.' 4000) (lastIndexOfWithin s '!' 4000))
          (lastIndexOfWithin s '?' 4000) = lastIndexOfWithin s c0 4000 := by
      rcases max_choice (max (lastIndexOfWithin s '.' 4000)
          (lastIndexOfWithin s '!' 4000)) (lastIndexOfWithin s '?' 4000) with h | h
      · rcases max_choice (lastIndexOfWithin s '.' 4000)
            (lastIndexOfWithin s '!' 4000) with h2 | h2
        · exact ⟨'.', rfl, by rw [h, h2]⟩
        · exact ⟨'!', rfl, by rw [h, h2]⟩
      · exact ⟨'?', rfl, h⟩
    rcases lastIndexOfWithin_spec s c0 4000 with hneg | ⟨j, hj, hjle, hjc⟩
    · rw [hvq, hneg] at hpos
      norm_num at hpos
    · have hjlen : j < s.length := by
        have h1 : j ≤ s.length - 1 := le_trans hjle (min_le_right _ _)
        omega
      simp only [trimToSentenceBoundary]
      rw [if_neg (not_le.mpr hlen)]
      rw [hvq, hj]
      rw [if_pos (by rw [← hj, ← hvq]; exact hpos)]
      refine ⟨s.data.getD j ' ', by rw [hjc]; exact hc0, ?_⟩
      have hdm : (String.mk (s.data.take (((j : Int)).toNat + 1))).data =
          s.data.take (((j : Int)).toNat + 1) := rfl
      rw [hdm, show ((j : Int)).toNat = j from rfl]
      exact getLast?_take_succ s.data j hjlen

lemma c5s0_data : c5s0.data = '.' :: List.replicate 4001 'a' := rfl

lemma c5s0_len : c5s0.length = 4002 := by
  rw [show c5s0.length = c5s0.data.length from rfl, c5s0_data,
    List.length_cons, List.length_replicate]

lemma c5s0_char (j : ℕ) :
    c5s0.data.getD j ' ' = '.' ∨ c5s0.data.getD j ' ' = 'a' ∨
      c5s0.data.getD j ' ' = ' ' := by
  cases j with
  | zero => exact Or.inl rfl
  | succ j =>
    rw [c5s0_data, List.getD_cons_succ, List.getD_eq_getElem?_getD,
      List.getElem?_replicate]
    split_ifs <;> simp

lemma c5s0_only0 (j : ℕ) (hj : c5s0.data.getD j ' ' = '.') : j = 0 := by
  cases j with
  | zero => rfl
  | succ j =>
    exfalso
    rw [c5s0_data, List.getD_cons_succ, List.getD_eq_getElem?_getD,
      List.getElem?_replicate] at hj
    split_ifs at hj <;> simp at hj

lemma c5s0_dot : lastIndexOfWithin c5s0 '.' 4000 = 0 := by
  rcases lastIndexOfWithin_spec c5s0 '.' 4000 with h | ⟨j, hj, _, hjc⟩
  · exfalso
    have hge := lastIndexOfWithin_ge c5s0 '.' 4000 0 rfl (by norm_num)
      (by rw [c5s0_len]; norm_num)
    rw [h] at hge
    norm_num at hge
  · rw [hj, c5s0_only0 j hjc]
    rfl

lemma c5s0_none (c : Char) (hcb : c = '!' ∨ c = '?') :
    lastIndexOfWithin c5s0 c 4000 = -1 := by
  rcases lastIndexOfWithin_spec c5s0 c 4000 with h | ⟨j, _, _, hjc⟩
  · exact h
  · exfalso
    rcases c5s0_char j with h0 | h0 | h0 <;> rw [h0] at hjc <;>
      rcases hcb with rfl | rfl <;> exact absurd hjc (by decide)

lemma c5s0_trim :
    (trimToSentenceBoundary c5s0 4000).data.getLast? = some 'a' := by
  simp only [trimToSentenceBoundary]
  rw [if_neg (by rw [c5s0_len]; norm_num)]
  rw [c5s0_dot, c5s0_none '!' (Or.inl rfl), c5s0_none '?' (Or.inr rfl)]
  rw [if_neg (by decide)]
  have htake : c5s0.data.take 4000 = '.' :: List.replicate 3999 'a' := by
    rw [c5s0_data, show (4000 : ℕ) = 3999 + 1 from rfl, List.take_succ_cons,
      List.take_replicate]
    rw [show min 3999 4001 = 3999 from by norm_num]
  rw [show (String.mk (c5s0.data.take 4000)).data = c5s0.data.take 4000 from rfl,
    htake]
  have hne : (List.replicate 3999 'a' : List Char) ≠ [] := by
    intro h0
    have h2 := congrArg List.length h0
    rw [List.length_replicate, List.length_nil] at h2
    norm_num at h2
  rw [getLast?_cons_of_ne _ _ hne]
  exact getLast?_replicate 'a' 3998

/-- Counterexample to claim C5 as stated: the 4002-character string `c5s0`
has its only terminator at position 0 ≤ 4000, yet the trimmed result ends
with `'a'`, not at a terminator — the code requires `lastBoundary > 0`
strictly, so a terminator at index 0 is ignored and the string is hard-cut. -/
theorem trim_boundary_counterexample :
    4000 < c5s0.length ∧
    isTermChar (c5s0.data.getD 0 ' ') = true ∧ (0 : ℕ) ≤ 4000 ∧
    ¬ ∃ c : Char, isTermChar c = true ∧
      (trimToSentenceBoundary c5s0 4000).data.getLast? = some c := by
  refine ⟨by rw [c5s0_len]; norm_num, rfl, by norm_num, ?_⟩
  rintro ⟨c, hc, hlast⟩
  rw [c5s0_trim] at hlast
  cases hlast
  exact absurd hc (by decide)

/-- Witness for the amended C5: a short string is returned unchanged, and a
4003-character string with a terminator at position 2 is trimmed to end at
a terminator. -/
theorem trim_boundary_correct_witness :
    ("hi." : String).length ≤ 4000 ∧
    trimToSentenceBoundary "hi." 4000 = "hi." ∧
    4000 < c5s2.length ∧
    (∃ p : ℕ, 1 ≤ p ∧ p ≤ 4000 ∧ isTermChar (c5s2.data.getD p ' ') = true) ∧
    ∃ c : Char, isTermChar c = true ∧
      (trimToSentenceBoundary c5s2 4000).data.getLast? = some c := by
  have hs : ("hi." : String).length ≤ 4000 := by decide
  have hblen : 4000 < c5s2.length := by
    rw [show c5s2.length = c5s2.data.length from rfl,
      show c5s2.data = 'a' :: 'b' :: '.' :: List.replicate 4000 'a' from rfl,
      List.length_cons, List.length_cons, List.length_cons,
      List.length_replicate]
    norm_num
  have hex : ∃ p : ℕ, 1 ≤ p ∧ p ≤ 4000 ∧
      isTermChar (c5s2.data.getD p ' ') = true :=
    ⟨2, by norm_num, by norm_num, rfl⟩
  exact ⟨hs, trim_boundary_correct.1 "hi." hs, hblen, hex,
    trim_boundary_correct.2 c5s2 hblen hex⟩
